import Mathlib

/-!
Verification of the GraphQL chat service (server resolvers and client hooks).

Server side: the resolvers in `server/resolvers.js` (quoted in the README)
guard every operation with an authentication check, append messages through
the message store, and fan new messages out to subscribers through an
in-process pub/sub hub.  The store and the pub/sub hub themselves live
outside the excerpted code, so their behaviour (monotonically increasing
ids, append-only log, fan-out to the registered sessions' queues) is
modelled from the spec.

Client side: the cache logic of `useMessages` and its subscription handler
in `client/src/lib/graphql/hooks.js`.
-/

/-- A chat message as in `schema.graphql`: `type Message { id, user, text }`.
Ids are the store-assigned, strictly increasing identifiers. -/
structure Message where
  id : Nat
  user : String
  text : String
deriving DecidableEq, Repr

/-- The principal attached to a request or connection: the `user` field of the
GraphQL context, either a concrete username or absent (unauthenticated). -/
inductive Principal where
  | authenticated (name : String)
  | unauthenticated
deriving DecidableEq, Repr

/-- Errors surfaced by the resolvers: `unauthorizedError()`, the spec's
`ValidationError`, and a failed store append (`StoreError`). -/
inductive GqlError where
  | authorization
  | validation
  | store
deriving DecidableEq, Repr

/-- Modelled from the spec: a Subscription Session — one live subscriber,
holding the principal fixed at subscribe time and an ordered delivery
queue fed by the broker. -/
structure Session where
  sid : Nat
  principal : String
  queue : List Message
deriving DecidableEq, Repr

/-- Modelled from the spec: the process-wide server state — the message
store's append-only log (with its next id) and the broker registry of
active sessions (with the next session identifier). -/
structure ServerState where
  store : List Message
  nextId : Nat
  nextSid : Nat
  sessions : List Session
deriving DecidableEq, Repr

/-- The state at process start: empty store, empty registry. -/
def initState : ServerState :=
  { store := [], nextId := 1, nextSid := 0, sessions := [] }

/-- Modelled from the spec: the message the store creates on a successful
append, carrying the store-assigned next id. -/
def mkMsg (st : ServerState) (name text : String) : Message :=
  { id := st.nextId, user := name, text := text }

/-- Modelled from the spec: `pubSub.publish("MESSAGE_ADDED", ...)` — the
broker delivers the message to every session currently in the active set,
appending it to each session's delivery queue. -/
def publish (st : ServerState) (m : Message) : ServerState :=
  { st with sessions := st.sessions.map (fun s => { s with queue := s.queue ++ [m] }) }

/-- `Mutation.addMessage` from `server/resolvers.js`: reject if the context
has no user; otherwise `await createMessage(user, text)` (the store append,
modelled from the spec, with `storeOk` choosing whether the append is
acknowledged or fails with a `StoreError`), and only then publish.  The
resulting state is returned alongside the GraphQL result. -/
def addMessage (storeOk : Bool) (st : ServerState) (p : Principal) (text : String) :
    ServerState × Except GqlError Message :=
  match p with
  | .unauthenticated => (st, .error .authorization)
  | .authenticated name =>
      if storeOk then
        let m := mkMsg st name text
        let st1 := { st with store := st.store ++ [m], nextId := st.nextId + 1 }
        (publish st1 m, .ok m)
      else
        (st, .error .store)

/-- `Query.messages` from `server/resolvers.js`: reject if the context has no
user; otherwise return `getMessages()` — all messages of the store, in
creation order (store behaviour modelled from the spec). -/
def listMessages (st : ServerState) (p : Principal) : Except GqlError (List Message) :=
  match p with
  | .unauthenticated => .error .authorization
  | .authenticated _ => .ok st.store

/-- `Subscription.messageAdded` from `server/resolvers.js`: reject if the
connection has no user; otherwise register a fresh session (empty queue,
principal fixed at subscribe time) with the broker, returning its id
(broker registration modelled from the spec). -/
def subscribe (st : ServerState) (p : Principal) : ServerState × Except GqlError Nat :=
  match p with
  | .unauthenticated => (st, .error .authorization)
  | .authenticated name =>
      ({ st with
          sessions := st.sessions ++ [{ sid := st.nextSid, principal := name, queue := [] }],
          nextSid := st.nextSid + 1 },
        .ok st.nextSid)

/-- One inbound operation at the gateway. -/
inductive Op where
  | add (storeOk : Bool) (p : Principal) (text : String)
  | sub (p : Principal)

/-- The state transition of one operation. -/
def step (st : ServerState) : Op → ServerState
  | .add ok p text => (addMessage ok st p text).1
  | .sub p => (subscribe st p).1

/-- Run a sequence of operations. -/
def runOps (st : ServerState) : List Op → ServerState
  | [] => st
  | op :: ops => runOps (step st op) ops

/-- Run a sequence of successful, authenticated `addMessage` calls
(author, text pairs), collecting the created messages in completion
order. -/
def runAdds (st : ServerState) : List (String × String) → ServerState × List Message
  | [] => (st, [])
  | (u, t) :: rest =>
      let st1 := (addMessage true st (.authenticated u) t).1
      let r := runAdds st1 rest
      (r.1, mkMsg st u t :: r.2)

/-- Every message sitting in some session's delivery queue is also in the
store (so nothing broadcast could be missing from a later read). -/
def queuesSubStore (st : ServerState) : Prop :=
  ∀ s ∈ st.sessions, ∀ m ∈ s.queue, m ∈ st.store

/-- The structural invariant of reachable server states: every queued
message has an id below the store's next id and queues are strictly
increasing in id, and every registered session id is below the next
session id. -/
def wfState (st : ServerState) : Prop :=
  (∀ s ∈ st.sessions,
      (∀ m ∈ s.queue, m.id < st.nextId) ∧
      List.Pairwise (fun a b : Message => a.id < b.id) s.queue ∧
      s.sid < st.nextSid) ∧
  (∀ m ∈ st.store, m.id < st.nextId)

/-! ## Client side (`client/src/lib/graphql/hooks.js`) -/

/-- The client-side failure mode: a JavaScript `TypeError` from reading a
property of `null`/`undefined`. -/
inductive ClientError where
  | typeError
deriving DecidableEq, Repr

/-- The value `useMessages` returns for the component: `data?.messages ?? []`,
where `data` is the (possibly not yet present) result of `messagesQuery`. -/
def useMessages (data : Option (List Message)) : List Message :=
  match data with
  | none => []
  | some msgs => msgs

/-- The `updateQuery` callback inside `useMessages`'s `onData` handler:
`(oldData) => ({ messages: [...oldData.messages, newMessage] })`.
When the cache holds no `messagesQuery` result yet, `oldData` is `null`
and reading `oldData.messages` raises a `TypeError`. -/
def onDataUpdate (oldData : Option (List Message)) (newMessage : Message) :
    Except ClientError (List Message) :=
  match oldData with
  | none => .error .typeError
  | some msgs => .ok (msgs ++ [newMessage])

/-! ## Theorems -/

/-- C1: `addMessage` with an Unauthenticated principal fails with
AuthorizationError and causes no state change at all: the store, the next
id, and every session's queue are exactly as before the call, so nothing
was appended and nothing was published. -/
theorem addMessage_unauthenticated_rejected (ok : Bool) (st : ServerState) (t : String) :
    addMessage ok st .unauthenticated t = (st, .error .authorization) := rfl

/-- C3 counterexample: an authenticated `addMessage` with empty text does
NOT fail with ValidationError — the resolver has no emptiness check, so the
call succeeds and a message with empty text is appended to the store. -/
theorem addMessage_emptyText_not_rejected :
    (addMessage true initState (.authenticated "alice") "").2 ≠
      Except.error GqlError.validation ∧
    (addMessage true initState (.authenticated "alice") "").1.store =
      [{ id := 1, user := "alice", text := "" }] := by
  constructor
  · intro h
    have h2 : (Except.ok ({ id := 1, user := "alice", text := "" } : Message) :
        Except GqlError Message) = .error .validation := h
    exact Except.noConfusion h2
  · rfl

/-- C3 amended: `addMessage` by an authenticated principal with empty text
succeeds, returning and appending a message whose text is the empty
string; no ValidationError is ever produced. -/
theorem addMessage_emptyText_succeeds (st : ServerState) (name : String) :
    (addMessage true st (.authenticated name) "").2 = .ok (mkMsg st name "") ∧
    (addMessage true st (.authenticated name) "").1.store = st.store ++ [mkMsg st name ""] :=
  ⟨rfl, rfl⟩

/-- C8: `useMessages` returns `[]` (never a missing value) while the query
has produced no data, and exactly the cached list once data is present. -/
theorem useMessages_defaults_empty (ms : List Message) :
    useMessages none = [] ∧ useMessages (some ms) = ms :=
  ⟨rfl, rfl⟩

/-- C9: the subscription handler appends the event's message to the cached
list unconditionally — the list grows by exactly one, and a message already
present in the query result ends up in the list twice. -/
theorem onData_appends_unconditionally (msgs : List Message) (nm : Message) :
    onDataUpdate (some msgs) nm = .ok (msgs ++ [nm]) ∧
    (msgs ++ [nm]).length = msgs.length + 1 ∧
    (nm ∈ msgs → 2 ≤ (msgs ++ [nm]).count nm) := by
  refine ⟨rfl, by simp, fun h => ?_⟩
  have h1 : 1 ≤ msgs.count nm := List.count_pos_iff.mpr h
  have h2 : (msgs ++ [nm]).count nm = msgs.count nm + 1 := by
    simp [List.count_append]
  omega

theorem onData_appends_unconditionally_witness :
    (⟨1, "alice", "hi"⟩ : Message) ∈ [(⟨1, "alice", "hi"⟩ : Message)] ∧
    2 ≤ ([(⟨1, "alice", "hi"⟩ : Message)] ++
      [(⟨1, "alice", "hi"⟩ : Message)]).count (⟨1, "alice", "hi"⟩ : Message) :=
  ⟨by decide,
    (onData_appends_unconditionally [(⟨1, "alice", "hi"⟩ : Message)]
      (⟨1, "alice", "hi"⟩ : Message)).2.2 (by decide)⟩

/-- C10: the subscription handler is total exactly when a query result is
already cached: with `oldData` absent it hits the `TypeError` branch, and
with a cached list it always succeeds. -/
theorem onData_requires_cached_query (nm : Message) (msgs : List Message) :
    onDataUpdate none nm = .error .typeError ∧
    onDataUpdate (some msgs) nm = .ok (msgs ++ [nm]) :=
  ⟨rfl, rfl⟩

/-- The store after a run of successful adds is the old store followed by
the created messages, in completion order. -/
theorem runAdds_store (reqs : List (String × String)) (st : ServerState) :
    (runAdds st reqs).1.store = st.store ++ (runAdds st reqs).2 := by
  induction reqs generalizing st with
  | nil => simp [runAdds]
  | cons p rest ih =>
      obtain ⟨u, t⟩ := p
      simp only [runAdds]
      rw [ih]
      simp [addMessage, publish, mkMsg]

/-- The ids of the messages created by a run of successful adds are the
consecutive store ids starting at the state's next id. -/
theorem runAdds_ids (reqs : List (String × String)) (st : ServerState) :
    ((runAdds st reqs).2).map Message.id = List.range' st.nextId reqs.length := by
  induction reqs generalizing st with
  | nil => simp [runAdds]
  | cons p rest ih =>
      obtain ⟨u, t⟩ := p
      simp only [runAdds, List.map_cons, List.length_cons]
      rw [ih]
      rw [List.range'_succ st.nextId rest.length 1]
      simp [addMessage, publish, mkMsg]

/-- C2: after any sequence of successful `addMessage` calls from a fresh
store, `listMessages` for any authenticated principal returns exactly the
created messages, in completion order, with strictly increasing ids; with
an Unauthenticated principal it fails with AuthorizationError. -/
theorem listMessages_returns_adds_in_order (reqs : List (String × String)) (u : String) :
    listMessages (runAdds initState reqs).1 (.authenticated u) =
      .ok (runAdds initState reqs).2 ∧
    List.Pairwise (fun a b : Message => a.id < b.id) (runAdds initState reqs).2 ∧
    listMessages (runAdds initState reqs).1 .unauthenticated = .error .authorization := by
  refine ⟨?_, ?_, rfl⟩
  · show Except.ok (runAdds initState reqs).1.store = _
    rw [runAdds_store]
    rfl
  · have hp : List.Pairwise (· < ·) (((runAdds initState reqs).2).map Message.id) := by
      rw [runAdds_ids]
      exact List.pairwise_lt_range' _ _
    exact List.pairwise_map.mp hp

instance (st : ServerState) : Decidable (queuesSubStore st) :=
  inferInstanceAs (Decidable (∀ s ∈ st.sessions, ∀ m ∈ s.queue, m ∈ st.store))

/-- C4: a failed store append surfaces StoreError and leaves the state
untouched — in particular no publish reaches any session queue; and an
`addMessage` call (failed or successful) preserves the property that every
message sitting in a queue is also in the store, so nothing is ever
broadcast that would be missing from a later read. -/
theorem publish_only_after_append (ok : Bool) (st : ServerState) (name t : String) :
    addMessage false st (.authenticated name) t = (st, .error .store) ∧
    (queuesSubStore st → queuesSubStore (addMessage ok st (.authenticated name) t).1) := by
  refine ⟨rfl, fun h => ?_⟩
  cases ok with
  | false => exact h
  | true =>
      intro s hs m hm
      have hs' : s ∈ st.sessions.map (fun s0 =>
          { s0 with queue := s0.queue ++ [mkMsg st name t] }) := hs
      obtain ⟨s0, hs0, rfl⟩ := List.mem_map.mp hs'
      have hm' : m ∈ s0.queue ++ [mkMsg st name t] := hm
      show m ∈ st.store ++ [mkMsg st name t]
      rcases List.mem_append.mp hm' with h1 | h1
      · exact List.mem_append_left _ (h s0 hs0 m h1)
      · exact List.mem_append_right _ h1

theorem publish_only_after_append_witness :
    queuesSubStore initState ∧
    queuesSubStore (addMessage true initState (.authenticated "alice") "hi").1 :=
  ⟨by decide, (publish_only_after_append true initState "alice" "hi").2 (by decide)⟩

/-- C5: an Unauthenticated subscribe fails with AuthorizationError and
registers nothing (the state is unchanged), and any session present after a
subscribe was either already registered or carries the authenticated
principal's name fixed at subscribe time — so only authorized sessions can
ever be delivered to. -/
theorem subscribe_requires_auth (st : ServerState) (p : Principal) :
    subscribe st .unauthenticated = (st, .error .authorization) ∧
    ∀ s ∈ (subscribe st p).1.sessions,
      s ∈ st.sessions ∨ ∃ name, p = .authenticated name ∧ s.principal = name := by
  refine ⟨rfl, fun s hs => ?_⟩
  cases p with
  | unauthenticated => exact Or.inl hs
  | authenticated name =>
      simp only [subscribe, List.mem_append, List.mem_singleton] at hs
      rcases hs with h | h
      · exact Or.inl h
      · subst h
        exact Or.inr ⟨name, rfl, rfl⟩

theorem subscribe_requires_auth_witness :
    ({ sid := 0, principal := "alice", queue := [] } : Session) ∈
      (subscribe initState (.authenticated "alice")).1.sessions ∧
    (({ sid := 0, principal := "alice", queue := [] } : Session) ∈ initState.sessions ∨
      ∃ name, Principal.authenticated "alice" = .authenticated name ∧
        ({ sid := 0, principal := "alice", queue := [] } : Session).principal = name) :=
  ⟨by decide, (subscribe_requires_auth initState (.authenticated "alice")).2 _ (by decide)⟩

/-- The initial state is well formed. -/
theorem wf_initState : wfState initState := by
  constructor
  · intro s hs
    simp [initState] at hs
  · intro m hm
    simp [initState] at hm

/-- Every gateway operation preserves the structural invariant. -/
theorem wf_step (st : ServerState) (op : Op) (h : wfState st) : wfState (step st op) := by
  obtain ⟨hses, hstore⟩ := h
  cases op with
  | add ok p t =>
      cases p with
      | unauthenticated => exact ⟨hses, hstore⟩
      | authenticated nm =>
          cases ok with
          | false => exact ⟨hses, hstore⟩
          | true =>
              constructor
              · intro s hs
                have hs' : s ∈ st.sessions.map (fun s0 =>
                    { s0 with queue := s0.queue ++ [mkMsg st nm t] }) := hs
                obtain ⟨s0, hs0, rfl⟩ := List.mem_map.mp hs'
                obtain ⟨hq, hord, hsid⟩ := hses s0 hs0
                refine ⟨?_, ?_, hsid⟩
                · intro m hm
                  rcases List.mem_append.mp hm with h1 | h1
                  · exact Nat.lt_succ_of_lt (hq m h1)
                  · rw [List.mem_singleton.mp h1]
                    exact Nat.lt_succ_self _
                · rw [List.pairwise_append]
                  refine ⟨hord, List.pairwise_singleton _ _, ?_⟩
                  intro a ha b hb
                  rw [List.mem_singleton.mp hb]
                  exact hq a ha
              · intro m hm
                rcases List.mem_append.mp hm with h1 | h1
                · exact Nat.lt_succ_of_lt (hstore m h1)
                · rw [List.mem_singleton.mp h1]
                  exact Nat.lt_succ_self _
  | sub p =>
      cases p with
      | unauthenticated => exact ⟨hses, hstore⟩
      | authenticated nm =>
          constructor
          · intro s hs
            rcases List.mem_append.mp hs with h1 | h1
            · obtain ⟨hq, hord, hsid⟩ := hses s h1
              exact ⟨hq, hord, Nat.lt_succ_of_lt hsid⟩
            · rw [List.mem_singleton.mp h1]
              refine ⟨?_, List.Pairwise.nil, Nat.lt_succ_self _⟩
              intro m hm
              simp at hm
          · exact hstore

/-- Every reachable state is well formed. -/
theorem wf_runOps (ops : List Op) (st : ServerState) (h : wfState st) :
    wfState (runOps st ops) := by
  induction ops generalizing st with
  | nil => exact h
  | cons op ops ih => exact ih _ (wf_step st op h)

/-- C6: in every reachable state, each session's delivery queue is strictly
increasing in store-assigned id and duplicate-free — so a session never
yields a later-created message before an earlier one and never yields a
message twice; concretely, a session subscribed before two successful adds
holds exactly those two messages, in creation order. -/
theorem session_stream_ordered (ops : List Op) (st : ServerState)
    (name u1 t1 u2 t2 : String) :
    (∀ s ∈ (runOps initState ops).sessions,
        List.Pairwise (fun a b : Message => a.id < b.id) s.queue ∧ s.queue.Nodup) ∧
    (addMessage true
        (addMessage true (subscribe st (.authenticated name)).1 (.authenticated u1) t1).1
        (.authenticated u2) t2).1.sessions.getLast? =
      some { sid := st.nextSid, principal := name,
             queue := [{ id := st.nextId, user := u1, text := t1 },
                       { id := st.nextId + 1, user := u2, text := t2 }] } := by
  constructor
  · intro s hs
    have hwf := wf_runOps ops initState wf_initState
    obtain ⟨_, hord, _⟩ := hwf.1 s hs
    refine ⟨hord, hord.imp ?_⟩
    intro a b hab heq
    exact absurd (heq ▸ hab) (lt_irrefl _)
  · show (List.map _ (List.map _
        (st.sessions ++ [{ sid := st.nextSid, principal := name, queue := [] }]))).getLast? = _
    rw [List.map_append, List.map_append, List.map_singleton, List.map_singleton,
      List.getLast?_concat]
    rfl

theorem session_stream_ordered_witness :
    List.Pairwise (fun a b : Message => a.id < b.id)
        ({ sid := 0, principal := "bob",
           queue := [{ id := 1, user := "alice", text := "hi" }] } : Session).queue ∧
    ({ sid := 0, principal := "bob",
       queue := [{ id := 1, user := "alice", text := "hi" }] } : Session).queue.Nodup :=
  (session_stream_ordered
      [.sub (.authenticated "bob"), .add true (.authenticated "alice") "hi"]
      initState "bob" "a" "b" "c" "d").1
    { sid := 0, principal := "bob",
      queue := [{ id := 1, user := "alice", text := "hi" }] } (by decide)

/-- A message already in the store stays in the store across any run of
operations (the log is append-only). -/
theorem runOps_store_mono (ops : List Op) (st : ServerState) (m : Message)
    (h : m ∈ st.store) : m ∈ (runOps st ops).store := by
  induction ops generalizing st with
  | nil => exact h
  | cons op ops ih =>
      refine ih _ ?_
      cases op with
      | add ok p t =>
          cases p with
          | unauthenticated => exact h
          | authenticated nm =>
              cases ok with
              | false => exact h
              | true =>
                  show m ∈ st.store ++ [mkMsg st nm t]
                  exact List.mem_append_left _ h
      | sub p => cases p <;> exact h

/-- One step preserves freshness: if `mid` is below the next store id and no
queue of a session with id `sid0` mentions a message with id `mid`, the
same holds afterwards (newly published messages get a fresh, larger id). -/
theorem step_fresh (st : ServerState) (op : Op) (mid sid0 : Nat)
    (h1 : mid < st.nextId)
    (h2 : ∀ s ∈ st.sessions, s.sid = sid0 → ∀ m ∈ s.queue, m.id ≠ mid) :
    mid < (step st op).nextId ∧
      ∀ s ∈ (step st op).sessions, s.sid = sid0 → ∀ m ∈ s.queue, m.id ≠ mid := by
  cases op with
  | add ok p t =>
      cases p with
      | unauthenticated => exact ⟨h1, h2⟩
      | authenticated nm =>
          cases ok with
          | false => exact ⟨h1, h2⟩
          | true =>
              refine ⟨Nat.lt_succ_of_lt h1, ?_⟩
              intro s hs hsid m hm
              have hs' : s ∈ st.sessions.map (fun s0 =>
                  { s0 with queue := s0.queue ++ [mkMsg st nm t] }) := hs
              obtain ⟨s0, hs0, rfl⟩ := List.mem_map.mp hs'
              have hm' : m ∈ s0.queue ++ [mkMsg st nm t] := hm
              rcases List.mem_append.mp hm' with hq | hq
              · exact h2 s0 hs0 hsid m hq
              · rw [List.mem_singleton.mp hq]
                exact fun he => absurd (he ▸ h1) (lt_irrefl _)
  | sub p =>
      cases p with
      | unauthenticated => exact ⟨h1, h2⟩
      | authenticated nm =>
          refine ⟨h1, ?_⟩
          intro s hs hsid m hm
          rcases List.mem_append.mp hs with hq | hq
          · exact h2 s hq hsid m hm
          · rw [List.mem_singleton.mp hq] at hm
            simp at hm

/-- Freshness propagates along any run of operations. -/
theorem runOps_fresh (ops : List Op) (st : ServerState) (mid sid0 : Nat)
    (h1 : mid < st.nextId)
    (h2 : ∀ s ∈ st.sessions, s.sid = sid0 → ∀ m ∈ s.queue, m.id ≠ mid) :
    mid < (runOps st ops).nextId ∧
      ∀ s ∈ (runOps st ops).sessions, s.sid = sid0 → ∀ m ∈ s.queue, m.id ≠ mid := by
  induction ops generalizing st with
  | nil => exact ⟨h1, h2⟩
  | cons op ops ih =>
      obtain ⟨g1, g2⟩ := step_fresh st op mid sid0 h1 h2
      exact ih _ g1 g2

/-- The server state after: arbitrary prior traffic `ops0` from startup,
then an authenticated add (creating one message), then a new authenticated
subscription — the "session created after M1 was published" scenario. -/
def lateSubState (ops0 : List Op) (u1 t1 name : String) : ServerState :=
  (subscribe (addMessage true (runOps initState ops0) (.authenticated u1) t1).1
    (.authenticated name)).1

/-- The message created by the add in `lateSubState`. -/
def lateMsg (ops0 : List Op) (u1 t1 : String) : Message :=
  mkMsg (runOps initState ops0) u1 t1

/-- C7: a session created after a message was published never receives
that message through the live stream, whatever traffic follows — while
`listMessages` afterwards still includes it. -/
theorem no_backfill (ops0 ops : List Op) (u1 t1 name : String) :
    (∀ s ∈ (runOps (lateSubState ops0 u1 t1 name) ops).sessions,
        s.sid = (runOps initState ops0).nextSid → lateMsg ops0 u1 t1 ∉ s.queue) ∧
    listMessages (runOps (lateSubState ops0 u1 t1 name) ops) (.authenticated name) =
      .ok (runOps (lateSubState ops0 u1 t1 name) ops).store ∧
    lateMsg ops0 u1 t1 ∈ (runOps (lateSubState ops0 u1 t1 name) ops).store := by
  have hwf := wf_runOps ops0 initState wf_initState
  have h1 : (lateMsg ops0 u1 t1).id < (lateSubState ops0 u1 t1 name).nextId :=
    Nat.lt_succ_self _
  have h2 : ∀ s ∈ (lateSubState ops0 u1 t1 name).sessions,
      s.sid = (runOps initState ops0).nextSid →
      ∀ m ∈ s.queue, m.id ≠ (lateMsg ops0 u1 t1).id := by
    intro s hs hsid m hm
    have hs' : s ∈ (runOps initState ops0).sessions.map (fun s0 =>
        { s0 with queue := s0.queue ++ [lateMsg ops0 u1 t1] }) ++
        [{ sid := (runOps initState ops0).nextSid, principal := name, queue := [] }] := hs
    rcases List.mem_append.mp hs' with hold | hnew
    · obtain ⟨s0, hs0, rfl⟩ := List.mem_map.mp hold
      have hlt : s0.sid < (runOps initState ops0).nextSid := (hwf.1 s0 hs0).2.2
      exact absurd hsid (Nat.ne_of_lt hlt)
    · rw [List.mem_singleton.mp hnew] at hm
      simp at hm
  obtain ⟨_, hfresh⟩ :=
    runOps_fresh ops (lateSubState ops0 u1 t1 name)
      (lateMsg ops0 u1 t1).id (runOps initState ops0).nextSid h1 h2
  refine ⟨?_, rfl, ?_⟩
  · intro s hs hsid hmem
    exact hfresh s hs hsid _ hmem rfl
  · refine runOps_store_mono ops _ _ ?_
    show lateMsg ops0 u1 t1 ∈ (runOps initState ops0).store ++ [lateMsg ops0 u1 t1]
    exact List.mem_append_right _ (List.mem_singleton_self _)

theorem no_backfill_witness :
    lateMsg [] "alice" "hi" ∉ ({ sid := 0, principal := "bob", queue := [] } : Session).queue :=
  (no_backfill [] [] "alice" "hi" "bob").1
    { sid := 0, principal := "bob", queue := [] } (by decide) (by decide)
